import Mathlib

/-!
Verification of the comment deduplication/normalization/analysis pipeline of
the douyin-comment repository.

The embedding follows the Python sources:
* `抖音评论爬虫_API监听版.py` — `DouyinCommentCrawler.parse_comment` and the
  dedup loop inside `DouyinCommentCrawler.start`;
* `douyin_analysis_results/douyin_crawler.py` — the `cid`/`id` comment-id
  computation and the set-based dedup in `start_crawler`;
* `douyin_analysis_results/douyin_analyzer.py` —
  `CommentAnalyzer.analyze_interaction_network` (the @-mention extraction, the
  time/similarity fallback and the graph-edge construction) and
  `CommentAnalyzer.analyze_user_influence` (the influence scoring).

Loosely-typed JSON field values are modelled by `RawField`; Python machine
integers are unbounded, so `Int` is exact.  Code that raises is modelled with
`Except Unit`.
-/

/-- Decidable equality for `Except`, used to evaluate the pipeline on
concrete inputs. -/
instance {ε α : Type} [DecidableEq ε] [DecidableEq α] : DecidableEq (Except ε α) := fun a b =>
  match a, b with
  | .error e, .error f =>
      if h : e = f then isTrue (by rw [h]) else isFalse (fun hh => h (by cases hh; rfl))
  | .ok x, .ok y =>
      if h : x = y then isTrue (by rw [h]) else isFalse (fun hh => h (by cases hh; rfl))
  | .error _, .ok _ => isFalse (fun hh => by cases hh)
  | .ok _, .error _ => isFalse (fun hh => by cases hh)

namespace Douyin

/-- A loosely-typed value of a raw JSON record field: a number, a string, or
an absent key. -/
inductive RawField where
  | num (n : Int)
  | str (s : String)
  | missing
deriving DecidableEq, Repr

/-- `comment.get(key, 0)`: an absent key defaults to the number `0`; any
present value is passed through unchanged. -/
def RawField.getD0 : RawField → RawField
  | .missing => .num 0
  | v => v

/-- A raw network-capture comment record, with the fields that
`parse_comment` (API监听版) and `_parse_comment_details` (douyin_crawler.py)
read.  `user.get(...)` sub-fields are flattened; an absent key is `none` /
`.missing`. -/
structure RawComment where
  cid : Option String
  id : Option Int
  nickname : Option String
  uid : Option String
  secUid : Option String
  ipLabel : Option String
  createTime : RawField
  text : String
  diggCount : RawField
  replyTotal : RawField
  replyToUsername : Option String
  replyToUserid : Option String
  stickPosition : Int
  userDigged : Int
deriving DecidableEq, Repr

/-- The value of the `时间` cell: `str(datetime.datetime.fromtimestamp(n))`
always yields a concrete calendar date, kept here as the epoch number it was
formatted from.  `unknown` is the sentinel the specification speaks about; no
code path produces it. -/
inductive TimeVal where
  | time (epoch : Int)
  | unknown
deriving DecidableEq, Repr

/-- `str(datetime.datetime.fromtimestamp(n))` for a numeric argument: a
concrete date. -/
def fromtimestamp (n : Int) : TimeVal := .time n

/-- Python's `str.strip()`: drop leading and trailing whitespace.
(`Char.isWhitespace` covers the ASCII whitespace Python strips; the exotic
Unicode space classes do not occur in the claims.) -/
def pyStrip (s : String) : String :=
  String.mk (((s.data.dropWhile Char.isWhitespace).reverse.dropWhile
      Char.isWhitespace).reverse)

/-- Decimal digit accumulator for `pyToIntOpt`. -/
def parseNatAux (acc : Nat) : List Char → Option Nat
  | [] => some acc
  | c :: cs => if c.isDigit then parseNatAux (acc * 10 + (c.toNat - 48)) cs else none

/-- Integer parse of a string cell, as `pd.to_numeric(errors='coerce')`
accepts it (restricted to integer literals with an optional sign; the data
the claims exercise has no float strings). -/
def pyToIntOpt (s : String) : Option Int :=
  match s.data with
  | [] => none
  | '-' :: cs => if cs.isEmpty then none else (parseNatAux 0 cs).map (fun n => -(n : Int))
  | '+' :: cs => if cs.isEmpty then none else (parseNatAux 0 cs).map (fun n => (n : Int))
  | cs => (parseNatAux 0 cs).map (fun n => (n : Int))

/-- One row of the canonical comment table, keyed exactly like the Python
dict built by `parse_comment`. -/
structure Comment where
  commentId : String
  nickname : String
  uid : String
  secUid : String
  ipLabel : String
  time : TimeVal
  content : String
  likeCount : RawField
  replyCount : RawField
  replyToUsername : String
  replyToUserid : String
  isPinned : String
  isHot : String
deriving DecidableEq, Repr

/-- `DouyinCommentCrawler.parse_comment` (API监听版, lines 30–50).
`datetime.datetime.fromtimestamp` raises `TypeError` when
`comment.get('create_time', 0)` returned a string, so the function is
`Except`-valued; every other field access substitutes a default and cannot
fail.  `评论ID` is `comment.get('cid', '')` verbatim. -/
def parse_comment (c : RawComment) : Except Unit Comment :=
  match c.createTime with
  | .str _ => .error ()
  | v => .ok
      { commentId := c.cid.getD ""
        nickname := c.nickname.getD ""
        uid := c.uid.getD ""
        secUid := c.secUid.getD ""
        ipLabel := c.ipLabel.getD ""
        time := fromtimestamp (match v with | .num n => n | _ => 0)
        content := pyStrip c.text
        likeCount := c.diggCount.getD0
        replyCount := c.replyTotal.getD0
        replyToUsername := c.replyToUsername.getD ""
        replyToUserid := c.replyToUserid.getD ""
        isPinned := if c.stickPosition > 0 then "是" else "否"
        isHot := if c.userDigged > 0 then "是" else "否" }

/-- The comment id used by `douyin_crawler.py` (line 619):
`comment.get('cid', '') or str(comment.get('id', ''))` — Python `or` keeps
the first operand when it is a non-empty (truthy) string. -/
def crawlerCommentId (c : RawComment) : String :=
  let cid := c.cid.getD ""
  if cid ≠ "" then cid
  else match c.id with
       | some n => toString n
       | none => ""

/-- One iteration of the dedup branch in `DouyinCommentCrawler.start`
(API监听版, lines 108–111): append the parsed row only when its `评论ID` is
not already in the table. -/
def insertComment (table : List Comment) (parsed : Comment) : List Comment :=
  if parsed.commentId ∈ table.map Comment.commentId then table
  else table ++ [parsed]

/-- The `for comment in resp.response.body.get('comments', [])` loop inside
the blanket `try/except` of `start`: a raised parse aborts the remainder of
the batch, leaving the table as it stands. -/
def processBatch : List Comment → List RawComment → List Comment
  | table, [] => table
  | table, r :: rs =>
      match parse_comment r with
      | .ok parsed => processBatch (insertComment table parsed) rs
      | .error _ => table

/-- The whole crawl: every captured response batch processed in order,
starting from the empty table. -/
def processBatches (batches : List (List RawComment)) : List Comment :=
  batches.foldl processBatch []

/-- `pd.to_numeric(col, errors='coerce').fillna(0)` applied to one cell
(douyin_analyzer.py line 934): numbers pass through, parseable numeric
strings parse, anything else becomes NaN and then 0. -/
def toNumericCoerce : RawField → Int
  | .num n => n
  | .str s => (pyToIntOpt s).getD 0
  | .missing => 0

/-- The numeric content of a raw field, if any: the number itself, or a
string's successful numeric parse. -/
def numericValue : RawField → Option Int
  | .num n => some n
  | .str s => pyToIntOpt s
  | .missing => none

/-!
## `CommentAnalyzer.analyze_interaction_network`

Modelled code path: the loaded table has a `用户ID` column but no
`回复给用户ID` column, so `has_reply_data` is false, the column is created as
`None`, @-relations are extracted (lines 596–622), and — when none is found —
the time/similarity fallback runs (lines 627–666).  Times are carried as
already-split cells: `some epochSeconds` for a cell `pd.to_datetime` parses,
`none` for an unparseable one (on which `pd.to_datetime` raises).
-/

/-- One row of the analyzer's DataFrame, restricted to the columns the
interaction-network analysis reads. -/
structure Row where
  nickname : String
  uid : String
  content : String
  time : Option Int
  replyTo : Option String
deriving DecidableEq, Repr

/-- A character allowed inside a `@([^\s:：]+)` token: not whitespace, not an
ASCII colon, not a fullwidth colon. -/
def atTokenOk (ch : Char) : Bool := !(ch.isWhitespace || ch = ':' || ch = '：')

/-- `re.findall(r'@([^\s:：]+)', comment)`: left-to-right, non-overlapping;
an `@` directly followed by a disallowed character does not match.  The
fuel argument (structural, so the kernel can evaluate) only bounds the
number of scanning steps; every step consumes at least one character, so any
fuel at least the input length is enough. -/
def atTokensAux : Nat → List Char → List String
  | 0, _ => []
  | _ + 1, [] => []
  | fuel + 1, c :: rest =>
      if c = '@' then
        let tok := rest.takeWhile atTokenOk
        if tok.length = 0 then atTokensAux fuel rest
        else String.mk tok :: atTokensAux fuel (rest.drop tok.length)
      else atTokensAux fuel rest

/-- All `@name` tokens of a comment's text. -/
def atTokens (s : String) : List String := atTokensAux s.data.length s.data

/-- Python's substring test `nd in hay` on character lists. -/
def subIn (nd : List Char) : List Char → Bool
  | [] => nd.isEmpty
  | h :: t => nd.isPrefixOf (h :: t) || subIn nd t

/-- Python's substring test `needle in hay` on strings. -/
def strIn (needle hay : String) : Bool := subIn needle.data hay.data

/-- One `dict` assignment: a fresh key is appended, an existing key keeps its
position and takes the new value (CPython dict semantics, as used by
`dict(zip(self.df['昵称'], self.df['用户ID']))`). -/
def dictInsert (m : List (String × String)) (k v : String) : List (String × String) :=
  if m.any (fun p => p.1 = k) then m.map (fun p => if p.1 = k then (k, v) else p)
  else m ++ [(k, v)]

/-- `name_to_id = dict(zip(self.df['昵称'], self.df['用户ID']))`. -/
def nameToId (rows : List Row) : List (String × String) :=
  rows.foldl (fun m r => dictInsert m r.nickname r.uid) []

/-- Dictionary lookup `name_to_id[k]`. -/
def dictFind (m : List (String × String)) (k : String) : Option String :=
  (m.find? (fun p => p.1 = k)).map Prod.snd

/-- `[name for name in name_to_id.keys() if at_name in name or name in at_name]`. -/
def matchedNames (names : List (String × String)) (tok : String) : List String :=
  (names.map Prod.fst).filter fun n => strIn tok n || strIn n tok

/-- Python's `max(lst, key=len)`: the first element of maximal length
(`max` keeps the earliest maximum). -/
def maxByLen : List String → Option String
  | [] => none
  | h :: t => some (t.foldl (fun best n => if n.length > best.length then n else best) h)

/-- The `for at_name in at_users` loop (lines 613–622): the first token with
a non-empty match list fixes the target (`break`); later tokens are never
scanned. -/
def atScan (names : List (String × String)) : List String → Option String
  | [] => none
  | tok :: rest =>
      match maxByLen (matchedNames names tok) with
      | some best => dictFind names best
      | none => atScan names rest

/-- The `回复给用户ID` value the @-extraction assigns to one comment. -/
def atTarget (names : List (String × String)) (content : String) : Option String :=
  atScan names (atTokens content)

/-- Accumulating worker for `pySplit`; `acc` holds the current word
reversed. -/
def pySplitAux (acc : List Char) : List Char → List String
  | [] => if acc.isEmpty then [] else [String.mk acc.reverse]
  | c :: cs =>
      if c.isWhitespace then
        if acc.isEmpty then pySplitAux [] cs
        else String.mk acc.reverse :: pySplitAux [] cs
      else pySplitAux (c :: acc) cs

/-- Python's `str.split()` with no argument: split on whitespace runs,
dropping empty pieces. -/
def pySplit (s : String) : List String := pySplitAux [] s.data

/-- Length of the longest common prefix of two character lists. -/
def commonPrefLen : List Char → List Char → Nat
  | a :: as, b :: bs => if a = b then commonPrefLen as bs + 1 else 0
  | _, _ => 0

/-- `difflib.SequenceMatcher.find_longest_match` over the whole strings
(no junk, inputs below the autojunk threshold): the longest matching block
`a[i:i+k] == b[j:j+k]`, ties resolved to the earliest `i`, then earliest
`j`. -/
def longestMatchAux (a b : List Char) : Nat × Nat × Nat :=
  (List.range (a.length + 1)).foldl (fun best i =>
    (List.range (b.length + 1)).foldl (fun best j =>
      let k := commonPrefLen (a.drop i) (b.drop j)
      if k > best.2.2 then (i, j, k) else best) best) (0, 0, 0)

/-- Total size of `SequenceMatcher.get_matching_blocks`: the longest match
plus, recursively, the matches strictly to its left and to its right.  The
fuel argument only bounds the recursion depth (any fuel above the length of
`a` is enough; the callers pass more). -/
def ratioMatches (a b : List Char) : Nat → Nat
  | 0 => 0
  | fuel + 1 =>
      let m := longestMatchAux a b
      if m.2.2 = 0 then 0
      else m.2.2 + ratioMatches (a.take m.1) (b.take m.2.1) fuel
                 + ratioMatches (a.drop (m.1 + m.2.2)) (b.drop (m.2.1 + m.2.2)) fuel

/-- The comparison `SequenceMatcher(None, cur, prev).ratio() > 0.4`, i.e.
`2*M/T > 2/5` in exact arithmetic (`ratio()` is `1.0` when both strings are
empty). -/
def simGT04 (cur prev : String) : Bool :=
  let T := cur.length + prev.length
  let M := ratioMatches cur.data prev.data (T + 1)
  if T = 0 then true else 5 * M > T

/-- The fallback acceptance test (line 663): `sim_score > 0.4 or
any(word in current_comment for word in prev_comment.split() if len(word) > 1)`. -/
def fallbackCond (cur prev : String) : Bool :=
  simGT04 cur prev || (pySplit prev).any (fun w => decide (w.length > 1) && strIn w cur)

/-- A row whose `时间` cell has been converted by `pd.to_datetime`. -/
structure TRow where
  nickname : String
  uid : String
  content : String
  time : Int
  replyTo : Option String
deriving DecidableEq, Repr

/-- `self.df['时间'] = pd.to_datetime(self.df['时间'])` (line 637): raises as
soon as one cell does not parse. -/
def toDatetime : List Row → Except Unit (List TRow)
  | [] => .ok []
  | r :: rs =>
      match r.time with
      | none => .error ()
      | some t =>
          (toDatetime rs).map (fun l => ⟨r.nickname, r.uid, r.content, t, r.replyTo⟩ :: l)

/-- Timestamp order used by `sort_values(by='时间')`. -/
def timeLe (a b : TRow) : Prop := a.time ≤ b.time

instance : DecidableRel timeLe := fun a b => Int.decLe a.time b.time

instance : IsTotal TRow timeLe := ⟨fun a b => Int.le_total a.time b.time⟩

instance : IsTrans TRow timeLe := ⟨fun _ _ _ h h' => Int.le_trans h h'⟩

/-- The inner `for j, previous in self.df.iterrows()` loop (lines 653–666)
for the comment at sorted position `i`: skip the row itself and rows with a
strictly later time, and take the first remaining row within the 5-minute
(300-second) trailing window that passes `fallbackCond` (`break`). -/
def findPrev (cur : TRow) (i : Nat) : List (Nat × TRow) → Option String
  | [] => none
  | (j, prev) :: rest =>
      if i = j ∨ prev.time > cur.time then findPrev cur i rest
      else if cur.time - prev.time ≤ 300 then
        if fallbackCond cur.content prev.content then some prev.uid
        else findPrev cur i rest
      else findPrev cur i rest

/-- The acceptance test of the inner fallback loop, combined into one
predicate: the candidate row is not the current row, not strictly later,
within the 300-second trailing window, and passes `fallbackCond`.  Used to
characterize `findPrev` as a first-match search. -/
def fallbackAccept (cur : TRow) (i : Nat) (p : Nat × TRow) : Bool :=
  !decide (i = p.1) && !decide (p.2.time > cur.time)
    && decide (cur.time - p.2.time ≤ 300) && fallbackCond cur.content p.2.content

/-- The outer fallback loop (lines 644–666) over the sorted table: rows that
already carry a target are skipped, the rest receive `findPrev`'s answer. -/
def fallbackAssign (sorted : List TRow) : List TRow :=
  sorted.enum.map fun p =>
    match p.2.replyTo with
    | some t => { p.2 with replyTo := some t }
    | none => { p.2 with replyTo := findPrev p.2 p.1 sorted.enum }

/-- First-seen deduplication of a list of identifiers (the node set built by
repeated `G.add_node`). -/
def dedupFS : List String → List String :=
  List.foldl (fun ks k => if k ∈ ks then ks else ks ++ [k]) []

/-- The edge loop (lines 683–685): for every row with a target that is a
known node, `G.add_edge(row['用户ID'], row['回复给用户ID'])` — parallel edges
collapse, and nothing filters `from == to`. -/
def edgesFold (nodes : List String) :
    List (String × String) → List (String × Option String) → List (String × String)
  | es, [] => es
  | es, (u, tgt) :: rest =>
      edgesFold nodes
        (match tgt with
         | some t => if t ∈ nodes then (if (u, t) ∈ es then es else es ++ [(u, t)]) else es
         | none => es) rest

/-- The reply-edge set of the interaction graph, from `(用户ID, 回复给用户ID)`
pairs. -/
def buildEdges (prs : List (String × Option String)) : List (String × String) :=
  edgesFold (dedupFS (prs.map Prod.fst)) [] prs

/-- The `(用户ID, 回复给用户ID)` pairs of a list of rows. -/
def rowPairs (rows : List Row) : List (String × Option String) :=
  rows.map fun r => (r.uid, r.replyTo)

/-- The `(用户ID, 回复给用户ID)` pairs of a list of time-parsed rows. -/
def trowPairs (rows : List TRow) : List (String × Option String) :=
  rows.map fun r => (r.uid, r.replyTo)

/-- A time-parsed row, as it sits in the stored DataFrame afterwards. -/
def toRow (t : TRow) : Row := ⟨t.nickname, t.uid, t.content, some t.time, t.replyTo⟩

/-- The @-extraction stage of `analyze_interaction_network` (lines 596–622):
the `回复给用户ID` column is created as `None` and then filled per row from
the comment's `@` tokens. -/
def atPhase (rows0 : List Row) : List Row :=
  let rows1 := rows0.map fun r => { r with replyTo := none }
  rows1.map fun r => { r with replyTo := atTarget (nameToId rows1) r.content }

/-- `analyze_interaction_network` on the modelled path, returning the stored
table (`self.df` after the analysis, which the method mutates) and the
reply-edge set.  When the @-extraction finds a relation the fallback — and
with it `pd.to_datetime` and the sort — never runs; when it finds none, the
stored table is re-assigned to the timestamp-sorted version, and the graph is
only built if the fallback found a relation. -/
def interactionNetwork (rows0 : List Row) :
    Except Unit (List Row × List (String × String)) :=
  let rows2 := atPhase rows0
  if rows2.any (fun r => r.replyTo.isSome) then
    .ok (rows2, buildEdges (rowPairs rows2))
  else
    match toDatetime rows2 with
    | .error e => .error e
    | .ok trows =>
        let assigned := fallbackAssign (List.insertionSort timeLe trows)
        if assigned.any (fun r => r.replyTo.isSome) then
          .ok (assigned.map toRow, buildEdges (trowPairs assigned))
        else
          .ok (assigned.map toRow, [])

/-!
## `CommentAnalyzer.analyze_user_influence` (lines 926–988)

The scoring reads three columns — `昵称`, `点赞数`, `评论` — and groups by
`昵称` throughout (`value_counts` / `groupby('昵称')`).
-/

/-- One row of the table as read by `analyze_user_influence`.  The `用户ID`
column is carried along because the specification's grouping rule mentions
it; the code never reads it here. -/
structure IRow where
  nickname : String
  uid : String
  likeRaw : RawField
  content : String
deriving DecidableEq, Repr

/-- The `点赞数` cell after `pd.to_numeric(..., errors='coerce').fillna(0)`
(line 934), as a rational. -/
def coerceLike (r : IRow) : ℚ := (toNumericCoerce r.likeRaw : ℤ)

/-- The distinct `昵称` values, i.e. the group keys of `value_counts` and
`groupby('昵称')`. -/
def groupKeys (rows : List IRow) : List String := dedupFS (rows.map IRow.nickname)

/-- Per-group comment count (`self.df['昵称'].value_counts()`). -/
def cntOf (rows : List IRow) (name : String) : Nat :=
  (rows.filter (fun r => r.nickname = name)).length

/-- Per-group total likes (`self.df.groupby('昵称')['点赞数'].sum()`). -/
def totOf (rows : List IRow) (name : String) : ℚ :=
  ((rows.filter (fun r => r.nickname = name)).map coerceLike).sum

/-- Per-group summed content length (`len(str(x))` per comment). -/
def lenSumOf (rows : List IRow) (name : String) : ℚ :=
  ((rows.filter (fun r => r.nickname = name)).map (fun r => (r.content.length : ℚ))).sum

/-- Per-group mean content length
(`self.df.groupby('昵称')['评论长度'].mean()`). -/
def avgOf (rows : List IRow) (name : String) : ℚ :=
  lenSumOf rows name / (cntOf rows name : ℚ)

/-- The maximum of a metric column.  `foldr max 0` agrees with pandas'
`.max()` whenever the true maximum is positive; otherwise both sides make
the `if max_val > 0` guard below pick `0`, so the normalized column is the
same. -/
def colMax (vals : List ℚ) : ℚ := vals.foldr max 0

/-- `user_influence[col] / max_val if max_val > 0 else 0` (lines 973–978). -/
def normBy (v m : ℚ) : ℚ := if 0 < m then v / m else 0

/-- `影响力得分` (lines 981–985):
`(norm(评论数)*0.4 + norm(总点赞数)*0.4 + norm(平均评论长度)*0.2) * 100`. -/
def scoreOf (rows : List IRow) (name : String) : ℚ :=
  (normBy (cntOf rows name : ℚ) (colMax ((groupKeys rows).map (fun n => (cntOf rows n : ℚ)))) * 0.4
    + normBy (totOf rows name) (colMax ((groupKeys rows).map (totOf rows))) * 0.4
    + normBy (avgOf rows name) (colMax ((groupKeys rows).map (avgOf rows))) * 0.2) * 100

/-- One row of the `user_influence` DataFrame. -/
structure InfluenceRecord where
  nickname : String
  cnt : Nat
  tot : ℚ
  avg : ℚ
  score : ℚ
deriving DecidableEq, Repr

/-- The `user_influence` table: one record per distinct `昵称`. -/
def influenceTable (rows : List IRow) : List InfluenceRecord :=
  (groupKeys rows).map fun n =>
    ⟨n, cntOf rows n, totOf rows n, avgOf rows n, scoreOf rows n⟩

/-- Descending score order used by
`user_influence.sort_values(by='影响力得分', ascending=False)`. -/
def scoreGe (a b : InfluenceRecord) : Prop := b.score ≤ a.score

instance : DecidableRel scoreGe := fun a b => inferInstanceAs (Decidable (b.score ≤ a.score))

instance : IsTotal InfluenceRecord scoreGe := ⟨fun a b => (le_total b.score a.score)⟩

instance : IsTrans InfluenceRecord scoreGe := ⟨fun _ _ _ h h' => le_trans h' h⟩

/-- The ranked influence table (the sort itself is a comparison sort on the
score column; the embedding uses a stable insertion sort). -/
def influenceRanked (rows : List IRow) : List InfluenceRecord :=
  List.insertionSort scoreGe (influenceTable rows)

/-- The grouping key exactly as claim C8 words it: `author_id`, falling back
to the display name when `author_id` is empty.  This definition follows the
claim's words, for comparison with the code's `昵称` grouping; it embeds no
source line. -/
def specGroupKey (r : IRow) : String := if r.uid = "" then r.nickname else r.uid

/-- The distinct group keys under claim C8's grouping rule. -/
def specGroupKeys (rows : List IRow) : List String := dedupFS (rows.map specGroupKey)

/-!
## Concrete inputs used by counterexamples and witnesses
-/

/-- A well-behaved network-capture record. -/
def baseRaw : RawComment :=
  { cid := some "c1", id := none, nickname := some "甲", uid := some "u1",
    secUid := none, ipLabel := none, createTime := .num 100, text := "你好",
    diggCount := .num 0, replyTotal := .num 0, replyToUsername := none,
    replyToUserid := none, stickPosition := 0, userDigged := 0 }

/-- A record whose source omits both `cid` and `id`. -/
def rawNoId : RawComment := { baseRaw with cid := none }

/-- A different record, also without `cid`/`id`. -/
def rawNoId2 : RawComment := { baseRaw with cid := none, nickname := some "乙", text := "不同" }

/-- A comment whose author @-mentions their own display name. -/
def selfMentionRow : Row := ⟨"张三", "u1", "@张三 说得对", some 0, none⟩

/-- Two comments with identical timestamps and overlapping text. -/
def eqTimeRowA : Row := ⟨"甲", "u1", "hello world", some 1000, none⟩

/-- See `eqTimeRowA`. -/
def eqTimeRowB : Row := ⟨"乙", "u2", "hello there", some 1000, none⟩

/-- A comment captured first but posted later. -/
def lateRow : Row := ⟨"甲", "u1", "xy", some 10000, none⟩

/-- A comment captured second but posted earlier. -/
def earlyRow : Row := ⟨"乙", "u2", "qq", some 5, none⟩

/-- Two comments sharing one `author_id` under two display names. -/
def dupUidRows : List IRow :=
  [⟨"甲", "u1", .num 3, "aa"⟩, ⟨"乙", "u1", .num 4, "bb"⟩]

/-- A table containing a negative like count (reachable, since nothing
clamps `digg_count`). -/
def negRows : List IRow := [⟨"A", "ua", .num 10, ""⟩, ⟨"B", "ub", .num (-100), ""⟩]

/-- `negRows` with author A's single like count increased by one. -/
def negRows2 : List IRow := [⟨"A", "ua", .num 11, ""⟩, ⟨"B", "ub", .num (-100), ""⟩]

/-- A record with a non-numeric like-count string. -/
def rawXyz : RawComment := { baseRaw with diggCount := .str "xyz" }

/-- The comment `parse_comment` produces from `rawXyz`. -/
def cXyz : Comment :=
  { commentId := "c1", nickname := "甲", uid := "u1", secUid := "",
    ipLabel := "", time := TimeVal.time 100, content := "你好",
    likeCount := .str "xyz", replyCount := .num 0, replyToUsername := "",
    replyToUserid := "", isPinned := "否", isHot := "否" }

/-- The comment `parse_comment` produces from `baseRaw`. -/
def cBase : Comment :=
  { commentId := "c1", nickname := "甲", uid := "u1", secUid := "",
    ipLabel := "", time := TimeVal.time 100, content := "你好",
    likeCount := .num 0, replyCount := .num 0, replyToUsername := "",
    replyToUserid := "", isPinned := "否", isHot := "否" }

/-- The comment `parse_comment` produces from `rawNoId`: its id is empty. -/
def cEmptyId : Comment := { cBase with commentId := "" }

/-- The comment `parse_comment` produces from `rawNoId2`. -/
def cNoId2 : Comment :=
  { cBase with commentId := "", nickname := "乙", content := "不同" }

end Douyin

namespace Douyin

/-!
## Claim C1 — dedup enforces `comment_id` uniqueness
-/

lemma nodup_insertComment {table : List Comment}
    (h : (table.map Comment.commentId).Nodup) (c : Comment) :
    ((insertComment table c).map Comment.commentId).Nodup := by
  unfold insertComment
  split
  · exact h
  · rename_i hmem
    simp [List.nodup_append, h, hmem]

lemma nodup_processBatch (rs : List RawComment) :
    ∀ table : List Comment, (table.map Comment.commentId).Nodup →
      ((processBatch table rs).map Comment.commentId).Nodup := by
  induction rs with
  | nil => intro table h; exact h
  | cons r rs ih =>
      intro table h
      unfold processBatch
      cases hp : parse_comment r with
      | error e => exact h
      | ok c => exact ih _ (nodup_insertComment h c)

/-- Claim C1: the canonical table never holds two rows with the same
`评论ID`; re-feeding a record whose id is already present leaves the table
untouched, and feeding the same record twice yields exactly one row. -/
theorem dedup_enforces_unique_ids :
    (∀ batches : List (List RawComment),
        ((processBatches batches).map Comment.commentId).Nodup)
    ∧ (∀ r c, parse_comment r = .ok c → processBatch [] [r, r] = [c])
    ∧ (∀ (table : List Comment) (rs : List RawComment),
        (∀ r ∈ rs, ∀ c, parse_comment r = .ok c →
          c.commentId ∈ table.map Comment.commentId) →
        processBatch table rs = table) := by
  refine ⟨?_, ?_, ?_⟩
  · intro batches
    have : ∀ table : List Comment, (table.map Comment.commentId).Nodup →
        ((batches.foldl processBatch table).map Comment.commentId).Nodup := by
      induction batches with
      | nil => intro table h; exact h
      | cons b bs ih => intro table h; exact ih _ (nodup_processBatch b table h)
    exact this [] (by simp)
  · intro r c h
    simp [processBatch, h, insertComment]
  · intro table rs
    induction rs generalizing table with
    | nil => intro _; rfl
    | cons r rs ih =>
        intro hall
        unfold processBatch
        cases hp : parse_comment r with
        | error e => rfl
        | ok c =>
            have hmem := hall r (by simp) c hp
            have hins : insertComment table c = table := by simp [insertComment, hmem]
            show processBatch (insertComment table c) rs = table
            rw [hins]
            exact ih table (fun r' hr' => hall r' (by simp [hr']))

/-- Witness for C1 at a concrete record: two copies of `baseRaw` produce a
one-row table. -/
theorem dedup_enforces_unique_ids_witness :
    processBatch [] [baseRaw, baseRaw] = [cBase] :=
  dedup_enforces_unique_ids.2.1 baseRaw cBase rfl

/-!
## Claim C2 — self-loops in the reply-edge set
-/

lemma edgesFold_mono (nodes : List String) (e : String × String) :
    ∀ (prs : List (String × Option String)) (es : List (String × String)),
      e ∈ es → e ∈ edgesFold nodes es prs := by
  intro prs
  induction prs with
  | nil => intro es h; exact h
  | cons p rest ih =>
      intro es h
      obtain ⟨u, tgt⟩ := p
      cases tgt with
      | none => exact ih es h
      | some t =>
          by_cases hn : t ∈ nodes
          · by_cases he : (u, t) ∈ es
            · simpa [edgesFold, hn, he] using ih es h
            · simpa [edgesFold, hn, he] using ih (es ++ [(u, t)]) (by simp [h])
          · simpa [edgesFold, hn] using ih es h

lemma edgesFold_adds (nodes : List String) (u t : String) :
    ∀ (prs : List (String × Option String)) (es : List (String × String)),
      (u, some t) ∈ prs → t ∈ nodes → (u, t) ∈ edgesFold nodes es prs := by
  intro prs
  induction prs with
  | nil => intro es h _; cases h
  | cons p rest ih =>
      intro es hmem hnode
      rcases List.mem_cons.mp hmem with heq | htail
      · obtain rfl := heq.symm
        by_cases he : (u, t) ∈ es
        · simpa [edgesFold, hnode, he] using edgesFold_mono nodes (u, t) rest es he
        · simpa [edgesFold, hnode, he] using
            edgesFold_mono nodes (u, t) rest (es ++ [(u, t)]) (by simp)
      · obtain ⟨u', tgt'⟩ := p
        cases tgt' with
        | none => exact ih es htail hnode
        | some t' =>
            by_cases hn : t' ∈ nodes
            · by_cases he : (u', t') ∈ es
              · simpa [edgesFold, hn, he] using ih es htail hnode
              · simpa [edgesFold, hn, he] using ih (es ++ [(u', t')]) htail hnode
            · simpa [edgesFold, hn] using ih es htail hnode

/-- Claim C2 counterexample: a comment @-mentioning its own author produces
the self-loop edge `("u1", "u1")`; nothing filters `from == to`. -/
theorem self_loop_edge_emitted :
    interactionNetwork [selfMentionRow]
      = .ok ([{ nickname := "张三", uid := "u1", content := "@张三 说得对",
                time := some 0, replyTo := some "u1" }],
             [("u1", "u1")]) := by decide

/-- Claim C2 (amended): the edge construction applies no self-loop filter —
every row whose target is a known node contributes its edge, including when
the target equals the row's own author id. -/
theorem edges_keep_self_loops (prs : List (String × Option String)) (u t : String)
    (hmem : (u, some t) ∈ prs) (hnode : t ∈ dedupFS (prs.map Prod.fst)) :
    (u, t) ∈ buildEdges prs := by
  unfold buildEdges
  exact edgesFold_adds _ u t prs [] hmem hnode

/-- Witness for C2 at a concrete self-loop pair. -/
theorem edges_keep_self_loops_witness :
    ("u1", "u1") ∈ buildEdges [("u1", some "u1")] :=
  edges_keep_self_loops [("u1", some "u1")] "u1" "u1" (by decide) (by decide)

/-!
## Claim C3 — timestamp normalization
-/

/-- Claim C3 counterexample: a record with no `create_time` gets the concrete
epoch date (`fromtimestamp 0`), not an "unknown" sentinel, and a free-text
time label makes `fromtimestamp` raise inside `parse_comment`. -/
theorem timestamp_fabricated_epoch :
    (parse_comment { baseRaw with createTime := .missing }).map Comment.time
      = .ok (TimeVal.time 0)
    ∧ TimeVal.time 0 ≠ TimeVal.unknown
    ∧ parse_comment { baseRaw with createTime := .str "3天前" } = .error () :=
  ⟨by decide, by decide, by decide⟩

/-- Claim C3 (amended): on any record whose `create_time` is numeric or
absent, `parse_comment` succeeds and stamps the comment with the concrete
epoch date of that number (0 when absent); the "unknown" sentinel is never
produced.  (A string `create_time` raises inside `parse_comment`, and the
caller's blanket `except` drops the record.) -/
theorem timestamp_nonstring_total (rc : RawComment)
    (h : ∀ s, rc.createTime ≠ .str s) :
    (parse_comment rc).map Comment.time
      = .ok (fromtimestamp ((numericValue rc.createTime).getD 0))
    ∧ (parse_comment rc).map Comment.time ≠ .ok TimeVal.unknown := by
  rcases hct : rc.createTime with n | s | _
  · refine ⟨by simp [parse_comment, hct, numericValue, Except.map], ?_⟩
    simp [parse_comment, hct, fromtimestamp, Except.map]
  · exact absurd hct (h s)
  · refine ⟨by simp [parse_comment, hct, numericValue, Except.map], ?_⟩
    simp [parse_comment, hct, fromtimestamp, Except.map]

/-- Witness for C3 at `baseRaw` (`create_time = 100`). -/
theorem timestamp_nonstring_total_witness :
    (parse_comment baseRaw).map Comment.time = .ok (TimeVal.time 100) := by
  have h := (timestamp_nonstring_total baseRaw (fun s hs => by simp [baseRaw] at hs)).1
  simpa [baseRaw, numericValue, fromtimestamp] using h

/-!
## Claim C4 — like/reply count non-negativity
-/

/-- Claim C4 counterexample: a negative `digg_count` survives both
`parse_comment` and the analyzer's `pd.to_numeric(...).fillna(0)` coercion
unchanged, so `like_count ≥ 0` fails. -/
theorem negative_like_passes_through :
    (parse_comment { baseRaw with diggCount := .num (-5) }).map
        (fun c => toNumericCoerce c.likeCount) = .ok (-5)
    ∧ ¬ (0 ≤ (-5 : Int)) :=
  ⟨by decide, by decide⟩

/-- Claim C4 (amended): `parse_comment` passes the raw like and reply values
through (defaulting absent keys to 0), and the analyzer's coercion yields a
non-negative like count exactly when the raw field has no negative numeric
content — non-numeric strings coerce to 0, negative numbers survive. -/
theorem like_coercion_passthrough (rc : RawComment) (c : Comment)
    (h : parse_comment rc = .ok c) :
    c.likeCount = rc.diggCount.getD0
    ∧ c.replyCount = rc.replyTotal.getD0
    ∧ (0 ≤ toNumericCoerce c.likeCount ↔
        ∀ n, numericValue rc.diggCount = some n → 0 ≤ n) := by
  rcases hct : rc.createTime with n | s | _
  all_goals simp only [parse_comment, hct] at h
  case str => cases h
  all_goals
    obtain rfl := (Except.ok.inj h).symm
    refine ⟨rfl, rfl, ?_⟩
  all_goals
    rcases hdg : rc.diggCount with m | s' | _
  · simp [RawField.getD0, toNumericCoerce, numericValue]
  · cases hpi : pyToIntOpt s' <;>
      simp [RawField.getD0, toNumericCoerce, numericValue, hpi]
  · simp [RawField.getD0, toNumericCoerce, numericValue]
  · simp [RawField.getD0, toNumericCoerce, numericValue]
  · cases hpi : pyToIntOpt s' <;>
      simp [RawField.getD0, toNumericCoerce, numericValue, hpi]
  · simp [RawField.getD0, toNumericCoerce, numericValue]

/-- Witness for C4 at a record with a non-numeric like string. -/
theorem like_coercion_passthrough_witness :
    cXyz.likeCount = rawXyz.diggCount.getD0
    ∧ cXyz.replyCount = rawXyz.replyTotal.getD0
    ∧ (0 ≤ toNumericCoerce cXyz.likeCount ↔
        ∀ n, numericValue rawXyz.diggCount = some n → 0 ≤ n) :=
  like_coercion_passthrough rawXyz cXyz (by decide)

/-!
## Claim C5 — comment-id synthesis
-/

lemma parse_commentId_eq {rc : RawComment} {c : Comment}
    (h : parse_comment rc = .ok c) : c.commentId = rc.cid.getD "" := by
  rcases hct : rc.createTime with n | s | _
  all_goals simp only [parse_comment, hct] at h
  case str => cases h
  all_goals obtain rfl := (Except.ok.inj h).symm
  all_goals rfl

/-- Claim C5 counterexample: a record whose source omits `cid` (and `id`)
yields the empty `comment_id` — no hash is synthesized — and the empty
string then acts as the dedup key: a second, different id-less record is
dropped as a duplicate. -/
theorem empty_comment_id_used_as_key :
    (parse_comment rawNoId).map Comment.commentId = .ok ""
    ∧ crawlerCommentId rawNoId = ""
    ∧ (processBatch [] [rawNoId, rawNoId2]).length = 1 :=
  ⟨by decide, by decide, by decide⟩

/-- Claim C5 (amended): `comment_id` is copied verbatim from `cid`
(`parse_comment`) or `cid or str(id)` (`douyin_crawler`), with the empty
string — not a synthesized hash — when the source has neither; every
id-less record after the first is then swallowed by the dedup. -/
theorem empty_id_collapse :
    (∀ rc c, parse_comment rc = .ok c → c.commentId = rc.cid.getD "")
    ∧ (∀ rc : RawComment, rc.cid = none → rc.id = none → crawlerCommentId rc = "")
    ∧ (∀ (table : List Comment) (rs : List RawComment),
        (∀ r ∈ rs, r.cid = none ∨ r.cid = some "") →
        "" ∈ table.map Comment.commentId →
        processBatch table rs = table) := by
  refine ⟨fun rc c h => parse_commentId_eq h, ?_, ?_⟩
  · intro rc h1 h2
    simp [crawlerCommentId, h1, h2]
  · intro table rs
    induction rs generalizing table with
    | nil => intro _ _; rfl
    | cons r rs ih =>
        intro hall hempty
        unfold processBatch
        cases hp : parse_comment r with
        | error e => rfl
        | ok c =>
            have hid : c.commentId = "" := by
              rcases hall r (by simp) with h1 | h1 <;>
                simp [parse_commentId_eq hp, h1]
            have hins : insertComment table c = table := by
              simp [insertComment, hid, hempty]
            show processBatch (insertComment table c) rs = table
            rw [hins]
            exact ih table (fun r' hr' => hall r' (by simp [hr'])) hempty

/-- Witness for C5: with the empty id already present, a fresh id-less
record is a no-op. -/
theorem empty_id_collapse_witness :
    processBatch [cEmptyId] [rawNoId2] = [cEmptyId] :=
  empty_id_collapse.2.2 [cEmptyId] [rawNoId2] (by decide) (by decide)

/-!
## Claim C6 — @-mention resolution
-/

lemma atTokensAux_ok : ∀ (fuel : Nat) (l : List Char) (tok : String),
    tok ∈ atTokensAux fuel l → tok.data ≠ [] ∧ ∀ ch ∈ tok.data, atTokenOk ch := by
  intro fuel
  induction fuel with
  | zero => intro l tok h; simp [atTokensAux] at h
  | succ f ih =>
      intro l tok h
      cases l with
      | nil => simp [atTokensAux] at h
      | cons c rest =>
          by_cases hc : c = '@'
          · rw [atTokensAux, if_pos hc] at h
            by_cases ht : (rest.takeWhile atTokenOk).length = 0
            · rw [if_pos ht] at h
              exact ih rest tok h
            · rw [if_neg ht] at h
              rcases List.mem_cons.mp h with rfl | h'
              · refine ⟨?_, ?_⟩
                · intro heq
                  exact ht (by rw [show (String.mk (rest.takeWhile atTokenOk)).data
                      = rest.takeWhile atTokenOk from rfl] at heq; simp [heq])
                · intro ch hch
                  exact List.mem_takeWhile_imp hch
              · exact ih _ tok h'
          · rw [atTokensAux, if_neg hc] at h
            exact ih rest tok h

lemma maxByLen_fold_mem (h : String) (t : List String) :
    t.foldl (fun best n => if n.length > best.length then n else best) h ∈ h :: t := by
  induction t generalizing h with
  | nil => simp
  | cons x xs ih =>
      simp only [List.foldl_cons]
      by_cases hc : x.length > h.length
      · rw [if_pos hc]
        exact List.mem_cons_of_mem h (ih x)
      · rw [if_neg hc]
        rcases List.mem_cons.mp (ih h) with h1 | h1
        · rw [h1]; exact List.mem_cons_self h _
        · exact List.mem_cons_of_mem h (List.mem_cons_of_mem x h1)

lemma maxByLen_fold_ge (h : String) (t : List String) :
    ∀ n ∈ h :: t,
      n.length ≤ (t.foldl (fun best n => if n.length > best.length then n else best) h).length := by
  induction t generalizing h with
  | nil => simp
  | cons x xs ih =>
      intro n hn
      simp only [List.foldl_cons]
      by_cases hc : x.length > h.length
      · rw [if_pos hc]
        rcases List.mem_cons.mp hn with rfl | hn'
        · exact le_trans (le_of_lt hc) (ih x x (List.mem_cons_self x xs))
        · exact ih x n hn'
      · rw [if_neg hc]
        rcases List.mem_cons.mp hn with rfl | hn'
        · exact ih n n (List.mem_cons_self n xs)
        · rcases List.mem_cons.mp hn' with rfl | hn''
          · exact le_trans (not_lt.mp hc) (ih h h (List.mem_cons_self h xs))
          · exact ih h n (List.mem_cons.mpr (Or.inr hn''))

lemma maxByLen_spec {l : List String} {b : String} (h : maxByLen l = some b) :
    b ∈ l ∧ ∀ n ∈ l, n.length ≤ b.length := by
  cases l with
  | nil => cases h
  | cons x xs =>
      have hb : xs.foldl (fun best n => if n.length > best.length then n else best) x = b :=
        Option.some.inj h
      rw [← hb]
      exact ⟨maxByLen_fold_mem x xs, maxByLen_fold_ge x xs⟩

lemma dictFind_isSome {m : List (String × String)} {k : String}
    (h : k ∈ m.map Prod.fst) : (dictFind m k).isSome := by
  induction m with
  | nil => simp at h
  | cons p rest ih =>
      by_cases hp : p.1 = k
      · simp [dictFind, List.find?_cons, hp]
      · have h' : k ∈ rest.map Prod.fst := by
          rcases (by simpa using h : k = p.1 ∨ ∃ x, (k, x) ∈ rest) with h1 | ⟨x, h1⟩
          · exact absurd h1.symm hp
          · exact List.mem_map.mpr ⟨(k, x), h1, rfl⟩
        have : dictFind (p :: rest) k = dictFind rest k := by
          simp [dictFind, List.find?_cons, hp]
        rw [this]
        exact ih h'

lemma atScan_none {names : List (String × String)} :
    ∀ l : List String,
      (l.find? fun t => !(matchedNames names t).isEmpty) = none →
        atScan names l = none := by
  intro l
  induction l with
  | nil => intro _; rfl
  | cons t rest ih =>
      intro hf
      cases hmn : matchedNames names t with
      | nil =>
          simp only [List.find?_cons, hmn, List.isEmpty_nil, Bool.not_true] at hf
          simp only [atScan, hmn, maxByLen]
          exact ih hf
      | cons a as =>
          simp [List.find?_cons, hmn] at hf

lemma atScan_some {names : List (String × String)} :
    ∀ (l : List String) (tok best : String),
      (l.find? fun t => !(matchedNames names t).isEmpty) = some tok →
      maxByLen (matchedNames names tok) = some best →
      atScan names l = dictFind names best := by
  intro l
  induction l with
  | nil => intro tok best h _; cases h
  | cons t rest ih =>
      intro tok best hf hb
      cases hmn : matchedNames names t with
      | nil =>
          simp only [List.find?_cons, hmn, List.isEmpty_nil, Bool.not_true] at hf
          simp only [atScan, hmn, maxByLen]
          exact ih tok best hf hb
      | cons a as =>
          simp only [List.find?_cons, hmn, List.isEmpty_cons, Bool.not_false] at hf
          obtain rfl : t = tok := Option.some.inj hf
          simp only [atScan, hb]

/-- Claim C6: every extracted `@` token is a non-empty run of allowed
characters; when no token matches a known display name no target is
assigned; and the target comes from the first token with a match, choosing a
matched name of maximal length — later tokens are never scanned and at most
one target (hence one inferred edge) arises per comment. -/
theorem mention_resolution_spec (names : List (String × String)) (content : String) :
    (∀ tok ∈ atTokens content, tok.data ≠ [] ∧ ∀ ch ∈ tok.data, atTokenOk ch)
    ∧ (((atTokens content).find? fun t => !(matchedNames names t).isEmpty) = none →
        atTarget names content = none)
    ∧ (∀ tok best,
        ((atTokens content).find? fun t => !(matchedNames names t).isEmpty) = some tok →
        maxByLen (matchedNames names tok) = some best →
        best ∈ matchedNames names tok
        ∧ (∀ n ∈ matchedNames names tok, n.length ≤ best.length)
        ∧ (dictFind names best).isSome
        ∧ atTarget names content = dictFind names best) := by
  refine ⟨?_, ?_, ?_⟩
  · intro tok h
    exact atTokensAux_ok _ _ tok h
  · intro h
    exact atScan_none _ h
  · intro tok best hf hb
    obtain ⟨hmem, hmax⟩ := maxByLen_spec hb
    refine ⟨hmem, hmax, ?_, atScan_some _ tok best hf hb⟩
    exact dictFind_isSome (List.mem_of_mem_filter hmem)

/-- Witness for C6: the token `张三` matches both known names `张三` and
`张三丰`; the longer one is selected and its id returned. -/
theorem mention_resolution_spec_witness :
    "张三丰" ∈ matchedNames [("张三", "u2"), ("张三丰", "u3")] "张三"
    ∧ (∀ n ∈ matchedNames [("张三", "u2"), ("张三丰", "u3")] "张三",
        n.length ≤ "张三丰".length)
    ∧ (dictFind [("张三", "u2"), ("张三丰", "u3")] "张三丰").isSome
    ∧ atTarget [("张三", "u2"), ("张三丰", "u3")] "@张三 你们好"
        = dictFind [("张三", "u2"), ("张三丰", "u3")] "张三丰" :=
  (mention_resolution_spec [("张三", "u2"), ("张三丰", "u3")] "@张三 你们好").2.2
    "张三" "张三丰" (by decide) (by decide)

/-!
## Claim C7 — temporal/similarity fallback
-/

lemma findPrev_eq_find? (cur : TRow) (i : Nat) :
    ∀ l : List (Nat × TRow),
      findPrev cur i l =
        (l.find? (fallbackAccept cur i)).map (fun p => p.2.uid) := by
  intro l
  induction l with
  | nil => rfl
  | cons p rest ih =>
      obtain ⟨j, prev⟩ := p
      by_cases h1 : i = j ∨ prev.time > cur.time
      · rw [findPrev, if_pos h1, ih]
        have hpred : ¬ fallbackAccept cur i (j, prev) = true := by
          unfold fallbackAccept
          rcases h1 with h1 | h1 <;> simp [h1]
        rw [List.find?_cons_of_neg _ hpred]
      · push_neg at h1
        obtain ⟨hne, hgt⟩ := h1
        rw [findPrev, if_neg (by push_neg; exact ⟨hne, hgt⟩)]
        by_cases h2 : cur.time - prev.time ≤ 300
        · by_cases h3 : fallbackCond cur.content prev.content
          · rw [if_pos h2, if_pos h3]
            have hpred : fallbackAccept cur i (j, prev) = true := by
              unfold fallbackAccept
              simp [hne, not_lt.mpr hgt, h2, h3]
            rw [List.find?_cons_of_pos _ hpred]
            rfl
          · rw [if_pos h2, if_neg h3, ih]
            have hpred : ¬ fallbackAccept cur i (j, prev) = true := by
              unfold fallbackAccept
              simp [h3]
            rw [List.find?_cons_of_neg _ hpred]
        · rw [if_neg h2, ih]
          have hpred : ¬ fallbackAccept cur i (j, prev) = true := by
            unfold fallbackAccept
            simp [h2]
          rw [List.find?_cons_of_neg _ hpred]

lemma toDatetime_none : ∀ l : List Row, (∃ r ∈ l, r.time = none) →
    toDatetime l = .error () := by
  intro l
  induction l with
  | nil => rintro ⟨r, hr, _⟩; cases hr
  | cons r rs ih =>
      rintro ⟨r', hr', ht⟩
      rcases List.mem_cons.mp hr' with rfl | hmem
      · rw [toDatetime, ht]
      · cases htr : r.time with
        | none => rw [toDatetime, htr]
        | some t =>
            rw [toDatetime, htr, ih ⟨r', hmem, ht⟩]
            rfl

lemma atPhase_time (rows0 : List Row) (r : Row) (h : r ∈ rows0) :
    ∃ r' ∈ atPhase rows0, r'.time = r.time :=
  ⟨_, List.mem_map_of_mem _ (List.mem_map_of_mem _ h), rfl⟩

set_option maxRecDepth 40000 in
/-- Claim C7 counterexample: two comments with identical timestamps (so
neither is *strictly earlier* in time) still link to each other through the
fallback — `previous['时间'] > current_time` only skips strictly later rows,
so equal-time rows (even ones after the current row in sorted order) are
accepted, producing the mutual edges `u1↔u2` here where the claim's
"earlier-in-time" rule would produce none. -/
theorem fallback_links_equal_timestamps :
    interactionNetwork [eqTimeRowA, eqTimeRowB]
      = .ok ([{ nickname := "甲", uid := "u1", content := "hello world",
                time := some 1000, replyTo := some "u2" },
              { nickname := "乙", uid := "u2", content := "hello there",
                time := some 1000, replyTo := some "u1" }],
             [("u1", "u2"), ("u2", "u1")])
    ∧ eqTimeRowA.time = eqTimeRowB.time :=
  ⟨by decide, by decide⟩

/-- Claim C7 (amended): the fallback assigns, per comment, the author of the
*first* row in sorted-table iteration order — other than the row itself —
whose timestamp is less than or equal to the comment's (equality allowed)
with difference at most 300 seconds and which passes the
similarity-or-shared-token test; and an unparseable timestamp anywhere makes
`pd.to_datetime` raise, aborting the whole analysis rather than excluding
that one comment. -/
theorem fallback_first_above_threshold (cur : TRow) (i : Nat) (l : List (Nat × TRow)) :
    (findPrev cur i l = (l.find? (fallbackAccept cur i)).map (fun p => p.2.uid))
    ∧ (∀ rows0 : List Row,
        ((atPhase rows0).any fun r => r.replyTo.isSome) = false →
        (∃ r ∈ rows0, r.time = none) →
        interactionNetwork rows0 = .error ()) := by
  refine ⟨findPrev_eq_find? cur i l, ?_⟩
  intro rows0 hany hnone
  obtain ⟨r, hr, ht⟩ := hnone
  obtain ⟨r', hr', ht'⟩ := atPhase_time rows0 r hr
  have hdt : toDatetime (atPhase rows0) = .error () :=
    toDatetime_none _ ⟨r', hr', by rw [ht', ht]⟩
  simp only [interactionNetwork, hany, hdt, Bool.false_eq_true, if_false]

set_option maxRecDepth 40000 in
/-- Witness for C7: a 100-second-earlier identical comment is linked. -/
theorem fallback_first_above_threshold_witness :
    findPrev ⟨"甲", "u1", "hello", 1000, none⟩ 1 [(0, ⟨"乙", "u2", "hello", 900, none⟩)]
      = some "u2" := by
  rw [(fallback_first_above_threshold ⟨"甲", "u1", "hello", 1000, none⟩ 1
      [(0, ⟨"乙", "u2", "hello", 900, none⟩)]).1]
  decide

/-!
## Claim C10 — table order
-/

lemma processBatch_all_new :
    ∀ (records : List RawComment) (cs : List Comment) (table : List Comment),
      List.Forall₂ (fun r c => parse_comment r = .ok c) records cs →
      ((table.map Comment.commentId) ++ (cs.map Comment.commentId)).Nodup →
      processBatch table records = table ++ cs := by
  intro records
  induction records with
  | nil =>
      intro cs table hf _
      cases hf
      simp [processBatch]
  | cons r rs ih =>
      intro cs table hf hn
      cases hf with
      | cons hrc hf' =>
          rename_i c cs'
          have hnotin : c.commentId ∉ table.map Comment.commentId := by
            intro hmem
            rcases List.nodup_append.mp hn with ⟨_, _, hdisj⟩
            exact hdisj hmem (by simp)
          have hins : insertComment table c = table ++ [c] := by
            simp [insertComment, hnotin]
          have hn' : (((table ++ [c]).map Comment.commentId)
              ++ (cs'.map Comment.commentId)).Nodup := by
            have h0 := hn
            rw [List.map_cons, List.append_cons] at h0
            simpa using h0
          unfold processBatch
          rw [hrc]
          show processBatch (insertComment table c) rs = table ++ c :: cs'
          rw [hins]
          calc processBatch (table ++ [c]) rs = (table ++ [c]) ++ cs' :=
                ih cs' (table ++ [c]) hf' hn'
            _ = table ++ c :: cs' := by simp

lemma fallbackAssign_times (l : List TRow) :
    (fallbackAssign l).map TRow.time = l.map TRow.time := by
  unfold fallbackAssign
  rw [List.map_map]
  have h1 : (TRow.time ∘ fun p : Nat × TRow => match p.2.replyTo with
      | some t => { p.2 with replyTo := some t }
      | none => { p.2 with replyTo := findPrev p.2 p.1 l.enum }) =
      fun p : Nat × TRow => p.2.time := by
    funext p
    cases hp : p.2.replyTo <;> simp [Function.comp, hp]
  rw [h1]
  have h2 : (fun p : Nat × TRow => p.2.time) = TRow.time ∘ Prod.snd := rfl
  rw [h2, ← List.map_map, List.enum_map_snd]

lemma interaction_table_sorted (rows0 tbl : List Row)
    (edges : List (String × String))
    (hany : ((atPhase rows0).any fun r => r.replyTo.isSome) = false)
    (hok : interactionNetwork rows0 = .ok (tbl, edges)) :
    (tbl.filterMap Row.time).Sorted (· ≤ ·) := by
  unfold interactionNetwork at hok
  simp only [hany, Bool.false_eq_true, if_false] at hok
  split at hok
  · exact absurd hok (by simp)
  · rename_i trows heq
    have htbl : tbl = (fallbackAssign (List.insertionSort timeLe trows)).map toRow := by
      split at hok <;> exact ((Prod.ext_iff.mp (Except.ok.inj hok)).1).symm
    rw [htbl]
    have hfm : ((fallbackAssign (List.insertionSort timeLe trows)).map toRow).filterMap
          Row.time
        = (fallbackAssign (List.insertionSort timeLe trows)).map TRow.time := by
      rw [List.filterMap_map]
      exact congrFun (List.filterMap_eq_map TRow.time) _
    rw [hfm, fallbackAssign_times]
    exact List.Pairwise.map TRow.time (fun a b hab => hab)
      (List.sorted_insertionSort timeLe trows)

/-- Claim C10 counterexample: after entering the similarity fallback, the
stored table comes back timestamp-sorted — the first-seen order
`["甲", "乙"]` becomes `["乙", "甲"]`. -/
theorem analysis_reorders_stored_table :
    (interactionNetwork [lateRow, earlyRow]).map (fun p => p.1.map Row.nickname)
      = .ok ["乙", "甲"]
    ∧ [lateRow, earlyRow].map Row.nickname = ["甲", "乙"]
    ∧ (["乙", "甲"] : List String) ≠ ["甲", "乙"] :=
  ⟨by decide, by decide, by decide⟩

/-- Claim C10 (amended): the crawler's canonical table equals the parsed
records in first-seen order; `analyze_interaction_network`, however, mutates
the analyzer's stored table — once the fallback branch runs, the stored
iteration order is timestamp order, not first-seen order. -/
theorem table_order_and_resort :
    (∀ (records : List RawComment) (cs : List Comment),
        List.Forall₂ (fun r c => parse_comment r = .ok c) records cs →
        (cs.map Comment.commentId).Nodup →
        processBatch [] records = cs)
    ∧ (∀ (rows0 tbl : List Row) (edges : List (String × String)),
        ((atPhase rows0).any fun r => r.replyTo.isSome) = false →
        interactionNetwork rows0 = .ok (tbl, edges) →
        (tbl.filterMap Row.time).Sorted (· ≤ ·)) := by
  constructor
  · intro records cs hf hn
    simpa using processBatch_all_new records cs [] hf (by simpa using hn)
  · intro rows0 tbl edges hany hok
    exact interaction_table_sorted rows0 tbl edges hany hok

/-- Witness for C10: two distinct records are appended in first-seen
order. -/
theorem table_order_and_resort_witness :
    processBatch [] [baseRaw, rawNoId2] = [cBase, cNoId2] :=
  table_order_and_resort.1 [baseRaw, rawNoId2] [cBase, cNoId2]
    (List.Forall₂.cons rfl (List.Forall₂.cons rfl List.Forall₂.nil)) (by decide)

/-!
## Claim C8 — influence scoring pipeline
-/

/-- Claim C8 counterexample: the code groups by display name (`昵称`), not by
`author_id` with a display-name fallback — two comments sharing `author_id`
`"u1"` under the names `甲` and `乙` yield two influence records, while the
claim's grouping rule yields a single `"u1"` group. -/
theorem grouping_by_display_name :
    (influenceTable dupUidRows).map InfluenceRecord.nickname = ["甲", "乙"]
    ∧ specGroupKeys dupUidRows = ["u1"]
    ∧ (influenceTable dupUidRows).length ≠ (specGroupKeys dupUidRows).length :=
  ⟨by decide, by decide, by decide⟩

/-- Claim C8 (amended): the scorer groups by display name, computes the
per-group count, like total and mean content length, max-normalizes each
metric with a zero guard, scores with the 0.4/0.4/0.2 weights × 100
(`scoreOf`), and returns the group records sorted descending by score (the
output is a permutation of the per-group records; the tie order is that of
the sort, not a documented insertion-order rule). -/
theorem influence_pipeline_spec (rows : List IRow) :
    (influenceRanked rows).Sorted scoreGe
    ∧ (influenceRanked rows).Perm (influenceTable rows)
    ∧ (∀ rec ∈ influenceTable rows,
        rec.nickname ∈ groupKeys rows
        ∧ rec.cnt = cntOf rows rec.nickname
        ∧ rec.tot = totOf rows rec.nickname
        ∧ rec.avg = avgOf rows rec.nickname
        ∧ rec.score = scoreOf rows rec.nickname) := by
  refine ⟨List.sorted_insertionSort scoreGe _, List.perm_insertionSort scoreGe _, ?_⟩
  intro rec hrec
  obtain ⟨n, hn, rfl⟩ := List.mem_map.mp hrec
  exact ⟨hn, rfl, rfl, rfl, rfl⟩

/-- Witness for C8 at `dupUidRows`, group `甲`. -/
theorem influence_pipeline_spec_witness :
    (⟨"甲", cntOf dupUidRows "甲", totOf dupUidRows "甲", avgOf dupUidRows "甲",
        scoreOf dupUidRows "甲"⟩ : InfluenceRecord).nickname ∈ groupKeys dupUidRows
    ∧ (⟨"甲", cntOf dupUidRows "甲", totOf dupUidRows "甲", avgOf dupUidRows "甲",
        scoreOf dupUidRows "甲"⟩ : InfluenceRecord).cnt = cntOf dupUidRows "甲"
    ∧ (⟨"甲", cntOf dupUidRows "甲", totOf dupUidRows "甲", avgOf dupUidRows "甲",
        scoreOf dupUidRows "甲"⟩ : InfluenceRecord).tot = totOf dupUidRows "甲"
    ∧ (⟨"甲", cntOf dupUidRows "甲", totOf dupUidRows "甲", avgOf dupUidRows "甲",
        scoreOf dupUidRows "甲"⟩ : InfluenceRecord).avg = avgOf dupUidRows "甲"
    ∧ (⟨"甲", cntOf dupUidRows "甲", totOf dupUidRows "甲", avgOf dupUidRows "甲",
        scoreOf dupUidRows "甲"⟩ : InfluenceRecord).score = scoreOf dupUidRows "甲" :=
  (influence_pipeline_spec dupUidRows).2.2 _ (List.mem_map_of_mem _ (by decide))

/-!
## Claim C9 — influence monotonicity
-/

lemma colMax_nonneg (l : List ℚ) : 0 ≤ colMax l := by
  induction l with
  | nil => exact le_refl 0
  | cons a t ih => exact le_trans ih (le_max_right a _)

lemma le_colMax_of_mem {x : ℚ} {l : List ℚ} (h : x ∈ l) : x ≤ colMax l := by
  induction l with
  | nil => cases h
  | cons a t ih =>
      rcases List.mem_cons.mp h with rfl | h'
      · exact le_max_left x (colMax t)
      · exact le_trans (ih h') (le_max_right a _)

lemma colMax_le {l : List ℚ} {c : ℚ} (h0 : 0 ≤ c) (h : ∀ x ∈ l, x ≤ c) :
    colMax l ≤ c := by
  induction l with
  | nil => exact h0
  | cons a t ih => exact max_le (h a (by simp)) (ih fun x hx => h x (by simp [hx]))

lemma colMax_map_mono {f g : String → ℚ} : ∀ keys : List String,
    (∀ x ∈ keys, f x ≤ g x) → colMax (keys.map f) ≤ colMax (keys.map g) := by
  intro keys
  induction keys with
  | nil => intro _; exact le_refl 0
  | cons k t ih =>
      intro h
      exact max_le_max (h k (by simp)) (ih fun x hx => h x (by simp [hx]))

lemma mem_dedupFS_aux (x : String) : ∀ (l acc : List String),
    (x ∈ l.foldl (fun ks k => if k ∈ ks then ks else ks ++ [k]) acc) ↔
      (x ∈ acc ∨ x ∈ l) := by
  intro l
  induction l with
  | nil => intro acc; simp
  | cons a t ih =>
      intro acc
      simp only [List.foldl_cons]
      by_cases ha : a ∈ acc
      · rw [if_pos ha, ih]
        constructor
        · rintro (h | h)
          · exact Or.inl h
          · exact Or.inr (by simp [h])
        · rintro (h | h)
          · exact Or.inl h
          · rcases List.mem_cons.mp h with rfl | h'
            · exact Or.inl ha
            · exact Or.inr h'
      · rw [if_neg ha, ih]
        simp only [List.mem_append, List.mem_cons, List.mem_singleton]
        tauto

lemma mem_dedupFS {x : String} {l : List String} : x ∈ dedupFS l ↔ x ∈ l := by
  unfold dedupFS
  rw [mem_dedupFS_aux]
  simp

lemma tot_nonneg {rows : List IRow} (h : ∀ x ∈ rows, (0:ℚ) ≤ coerceLike x)
    (name : String) : 0 ≤ totOf rows name := by
  unfold totOf
  apply List.sum_nonneg
  intro q hq
  obtain ⟨x, hx, rfl⟩ := List.mem_map.mp hq
  exact h x (List.mem_of_mem_filter hx)

lemma normBy_pair {ta ta' tb m m' : ℚ} (h0a : 0 ≤ ta) (h0b : 0 ≤ tb)
    (hlt : ta < ta') (ham : ta ≤ m) (hbm : tb ≤ m) (ha' : ta' ≤ m')
    (hmm : m ≤ m') (hcap : m' ≤ max m ta') :
    normBy ta m ≤ normBy ta' m' ∧ normBy tb m' ≤ normBy tb m := by
  have h0a' : 0 < ta' := lt_of_le_of_lt h0a hlt
  have h0m' : 0 < m' := lt_of_lt_of_le h0a' ha'
  constructor
  · unfold normBy
    rw [if_pos h0m']
    by_cases hm : 0 < m
    · rw [if_pos hm]
      rcases eq_or_lt_of_le hmm with heq | hltm
      · rw [← heq]
        exact (div_le_div_iff_of_pos_right hm).mpr hlt.le
      · have hm'a : m' = ta' := by
          refine le_antisymm ?_ ha'
          rcases le_total ta' m with h | h
          · exact absurd (le_trans hcap (by rw [max_eq_left h])) (not_le.mpr hltm)
          · calc m' ≤ max m ta' := hcap
              _ = ta' := max_eq_right h
        rw [hm'a, div_self (ne_of_gt h0a')]
        exact (div_le_one hm).mpr ham
    · rw [if_neg hm]
      exact div_nonneg h0a'.le h0m'.le
  · unfold normBy
    by_cases hm : 0 < m
    · rw [if_pos hm, if_pos h0m']
      gcongr
    · rw [if_neg hm]
      have hb0 : tb = 0 := le_antisymm (le_trans hbm (not_lt.mp hm)) h0b
      rw [if_pos h0m', hb0, zero_div]

/-- Claim C9 counterexample: author B's (reachable) negative like total makes
max-normalization misbehave — raising A's like count from 10 to 11 raises
the likes maximum, which *raises* B's negative normalized score, so A's
score advantage over the untouched B strictly drops (440 to 4440/11). -/
theorem influence_not_monotone_on_negatives :
    scoreOf negRows2 "A" - scoreOf negRows2 "B"
      < scoreOf negRows "A" - scoreOf negRows "B" := by
  simp [scoreOf, normBy, colMax, groupKeys, dedupFS, cntOf, totOf, lenSumOf, avgOf,
    coerceLike, toNumericCoerce, negRows, negRows2]
  norm_num

/-- Claim C9 (amended): provided every coerced like count in the table is
non-negative, increasing the like count of any single comment (the comment
`r`, from `v` to `v + d`) never decreases its author's influence score
relative to any other author `b` whose metrics are untouched. -/
theorem influence_monotone (pre post : List IRow) (r : IRow) (v d : Int) (b : String)
    (hv : r.likeRaw = .num v) (hd : 0 < d)
    (hnn : ∀ x ∈ pre ++ r :: post, (0:ℚ) ≤ coerceLike x)
    (hb : b ∈ groupKeys (pre ++ r :: post)) (hab : b ≠ r.nickname) :
    scoreOf (pre ++ r :: post) r.nickname - scoreOf (pre ++ r :: post) b
      ≤ scoreOf (pre ++ { r with likeRaw := .num (v + d) } :: post) r.nickname
        - scoreOf (pre ++ { r with likeRaw := .num (v + d) } :: post) b := by
  set r' : IRow := { r with likeRaw := .num (v + d) } with hr'
  set rows := pre ++ r :: post with hrows
  set rows' := pre ++ r' :: post with hrows'
  have hnames : rows'.map IRow.nickname = rows.map IRow.nickname := by
    simp [hrows, hrows', hr']
  have hkeys : groupKeys rows' = groupKeys rows := by
    unfold groupKeys
    rw [hnames]
  have hcnt : ∀ name, cntOf rows' name = cntOf rows name := by
    intro name
    by_cases hc : r.nickname = name <;>
      simp [cntOf, hrows, hrows', hr', List.filter_append, List.filter_cons, hc]
  have hlen : ∀ name, lenSumOf rows' name = lenSumOf rows name := by
    intro name
    by_cases hc : r.nickname = name <;>
      simp [lenSumOf, hrows, hrows', hr', List.filter_append, List.filter_cons, hc]
  have havg : ∀ name, avgOf rows' name = avgOf rows name := by
    intro name
    unfold avgOf
    rw [hlen, hcnt]
  have htot_ne : ∀ name, name ≠ r.nickname → totOf rows' name = totOf rows name := by
    intro name hne
    have hc : ¬ (r.nickname = name) := fun h => hne h.symm
    simp [totOf, hrows, hrows', hr', List.filter_append, List.filter_cons, hc]
  have htot_eq : totOf rows' r.nickname = totOf rows r.nickname + (d : ℚ) := by
    simp [totOf, hrows, hrows', hr', List.filter_append, List.filter_cons,
      coerceLike, toNumericCoerce, hv]
    ring
  have ha : r.nickname ∈ groupKeys rows := by
    unfold groupKeys
    exact mem_dedupFS.mpr (List.mem_map_of_mem _ (by simp [hrows]))
  set K := groupKeys rows with hK
  set mT := colMax (K.map (totOf rows)) with hmT
  set mT' := colMax (K.map (totOf rows')) with hmT'
  have hmapC : K.map (fun n => (cntOf rows' n : ℚ))
      = K.map (fun n => (cntOf rows n : ℚ)) :=
    List.map_congr_left fun n _ => by rw [hcnt n]
  have hmapA : K.map (avgOf rows') = K.map (avgOf rows) :=
    List.map_congr_left fun n _ => havg n
  have hd' : (0:ℚ) < (d : ℚ) := by exact_mod_cast hd
  have hT1 : mT ≤ mT' := by
    rw [hmT, hmT']
    apply colMax_map_mono
    intro x hx
    by_cases hxa : x = r.nickname
    · rw [hxa, htot_eq]
      linarith
    · rw [htot_ne x hxa]
  have hTa : totOf rows r.nickname ≤ mT :=
    le_colMax_of_mem (List.mem_map_of_mem _ ha)
  have hTb : totOf rows b ≤ mT :=
    le_colMax_of_mem (List.mem_map_of_mem _ hb)
  have hTa' : totOf rows' r.nickname ≤ mT' :=
    le_colMax_of_mem (List.mem_map_of_mem _ ha)
  have hT3 : mT' ≤ max mT (totOf rows' r.nickname) := by
    rw [hmT']
    apply colMax_le (le_trans (colMax_nonneg _) (le_max_left mT _))
    intro x hx
    obtain ⟨n, hn, rfl⟩ := List.mem_map.mp hx
    by_cases hxa : n = r.nickname
    · rw [hxa]
      exact le_max_right _ _
    · rw [htot_ne n hxa]
      exact le_trans (le_colMax_of_mem (List.mem_map_of_mem _ hn)) (le_max_left _ _)
  have h0a : 0 ≤ totOf rows r.nickname := tot_nonneg hnn r.nickname
  have h0b : 0 ≤ totOf rows b := tot_nonneg hnn b
  have hlt : totOf rows r.nickname < totOf rows' r.nickname := by
    rw [htot_eq]
    linarith
  obtain ⟨hna, hnb⟩ := normBy_pair h0a h0b hlt hTa hTb hTa' hT1 hT3
  have hnb' : normBy (totOf rows' b) mT' ≤ normBy (totOf rows b) mT := by
    rw [htot_ne b hab]
    exact hnb
  unfold scoreOf
  rw [hkeys, hcnt r.nickname, hcnt b, havg r.nickname, havg b, hmapC, hmapA]
  linarith [hna, hnb']

/-- Witness for C9 at a two-author table with non-negative likes. -/
theorem influence_monotone_witness :
    scoreOf [⟨"A", "ua", .num 3, ""⟩, ⟨"B", "ub", .num 5, ""⟩] "A"
        - scoreOf [⟨"A", "ua", .num 3, ""⟩, ⟨"B", "ub", .num 5, ""⟩] "B"
      ≤ scoreOf [⟨"A", "ua", .num 5, ""⟩, ⟨"B", "ub", .num 5, ""⟩] "A"
        - scoreOf [⟨"A", "ua", .num 5, ""⟩, ⟨"B", "ub", .num 5, ""⟩] "B" :=
  influence_monotone [] [⟨"B", "ub", .num 5, ""⟩] ⟨"A", "ua", .num 3, ""⟩ 3 2 "B"
    rfl (by decide)
    (by
      intro x hx
      rcases List.mem_cons.mp hx with rfl | hx'
      · norm_num [coerceLike, toNumericCoerce]
      · rcases List.mem_cons.mp hx' with rfl | hx''
        · norm_num [coerceLike, toNumericCoerce]
        · cases hx'')
    (by decide) (by decide)

end Douyin
